import Mathlib

/-
Verification of the ingestion / deduplication / quote-extraction pipeline
of `scripts/collect_all.py`.

The embedding works over `List Char` for transcript text (Python handles
Unicode strings; the texts exercised here are ASCII, on which the embedding
agrees with Python exactly) and over `String` for identifiers and labels.
Python dicts are modelled as association lists in insertion order, which is
the iteration order Python guarantees.
-/

set_option autoImplicit false

namespace Overheard

/-- Character list of a string literal, the form in which the embedding handles text. -/
def chars (s : String) : List Char := s.data

/-! ### Sentence splitting: `re.split(r'[.!?]+', text)` (collect_all.py line 169) -/

/-- The character class `[.!?]` of the sentence-splitting regex. -/
def isTerm (c : Char) : Bool := c == '.' || c == '!' || c == '?'

mutual

/-- Collect the current segment (accumulated reversed in `acc`) up to the
next terminator run; mirrors how `re.split(r'[.!?]+', text)` cuts the text. -/
def splitBody : List Char → List Char → List (List Char)
  | [], acc => [acc.reverse]
  | c :: rest, acc =>
    if isTerm c then acc.reverse :: splitDelim rest
    else splitBody rest (c :: acc)

/-- Skip a maximal run of `[.!?]` terminators, then resume collecting. -/
def splitDelim : List Char → List (List Char)
  | [] => [[]]
  | c :: rest => if isTerm c then splitDelim rest else splitBody rest [c]

end

/-- `re.split(r'[.!?]+', text)`: split on maximal runs of sentence terminators. -/
def splitSentences (text : List Char) : List (List Char) := splitBody text []

/-! ### Trimming: Python `str.strip()` on ASCII text -/

/-- ASCII whitespace stripped by Python `str.strip()`. -/
def isPySpace (c : Char) : Bool :=
  c == ' ' || c == '\t' || c == '\n' || c == '\r' || c == '\x0b' || c == '\x0c'

/-- Python `sentence.strip()`: drop leading and trailing whitespace. -/
def trim (l : List Char) : List Char :=
  ((l.dropWhile isPySpace).reverse.dropWhile isPySpace).reverse

/-! ### Regex word matching

Every pattern in the table (lines 145-156) has the shape
`\b(alt1|alt2|...)\b` searched case-insensitively, where each alternative
begins and ends with a letter.  `re.search` succeeds exactly when some
alternative occurs at some position of the sentence, case-insensitively,
with a `\b` word boundary on each side.  Since the alternatives start and
end in word characters, the boundary condition reduces to: the character
before (resp. after) the occurrence, when it exists, is a non-word
character. -/

/-- Python regex `\w` on ASCII: letters, digits, underscore. -/
def isWordChar (c : Char) : Bool := c.isAlphanum || c == '_'

/-- `\b` before position `i`, given the match continues with a word character. -/
def boundaryBefore (s : List Char) (i : Nat) : Bool :=
  match i with
  | 0 => true
  | j + 1 => !isWordChar (s.getD j ' ')

/-- `\b` at position `j`, given the match ended with a word character. -/
def boundaryAfter (s : List Char) (j : Nat) : Bool := !isWordChar (s.getD j ' ')

/-- Alternative `w` matches at position `i` of `s`, case-insensitively and
with word boundaries on both sides. -/
def matchesAt (s w : List Char) (i : Nat) : Bool :=
  ((s.drop i).take w.length).map Char.toLower == w.map Char.toLower
    && boundaryBefore s i && boundaryAfter s (i + w.length)

/-- Alternative `w` matches somewhere in `s`. -/
def altMatches (s w : List Char) : Bool :=
  (List.range (s.length + 1)).any (fun i => matchesAt s w i)

/-- `re.search(r'\b(alt1|...)\b', s, re.IGNORECASE)` is not `None`. -/
def patMatches (s : List Char) (alts : List (List Char)) : Bool :=
  alts.any (fun w => altMatches s w)

/-! ### The pattern table (collect_all.py lines 145-156) -/

/-- `quote_patterns`: each rule as (alternatives of its regex, label). -/
def quote_patterns : List (List (List Char) × String) :=
  [ ([chars "always", chars "never", chars "everyone", chars "no one",
      chars "every single", chars "all of", chars "none of"], "absolutist-claims")
  , ([chars "animal", chars "vermin", chars "pest", chars "infestation",
      chars "invasion", chars "flood", chars "alien"], "dehumanizing-language")
  , ([chars "destroy", chars "eliminate", chars "wipe out", chars "fight",
      chars "attack", chars "war on", chars "enemy"], "violent-rhetoric")
  , ([chars "immigrant", chars "border", chars "deportation", chars "migrant",
      chars "illegal", chars "alien"], "immigration")
  , ([chars "vote", chars "election", chars "ballot", chars "fraud",
      chars "rigged", chars "stolen"], "election") ]

/-- The membership test of line 182: the three rhetoric labels. -/
def rhetoricLabels : List String :=
  ["absolutist-claims", "dehumanizing-language", "violent-rhetoric"]

/-- The classification loop of lines 177-185: run every rule of the table in
order over the sentence; a match appends its label to `rhetoric` when the
label is one of the three rhetoric labels, otherwise to `categories`.
Returns `(categories, rhetoric)`. -/
def classify (s : List Char) : List String × List String :=
  quote_patterns.foldl
    (fun acc rule =>
      if patMatches s rule.1 then
        if rule.2 ∈ rhetoricLabels then (acc.1, acc.2 ++ [rule.2])
        else (acc.1 ++ [rule.2], acc.2)
      else acc)
    ([], [])

/-- The keep test of line 188: `if rhetoric or len(categories) >= 2`. -/
def keepSegment (s : List Char) : Bool :=
  !(classify s).2.isEmpty || 2 ≤ (classify s).1.length

/-- A rule of the table is rhetoric-labelled and matches the sentence. -/
def rhetMatchP (s : List Char) (r : List (List Char) × String) : Bool :=
  decide (r.2 ∈ rhetoricLabels) && patMatches s r.1

/-- A rule of the table is topic-labelled and matches the sentence. -/
def topicMatchP (s : List Char) (r : List (List Char) × String) : Bool :=
  !decide (r.2 ∈ rhetoricLabels) && patMatches s r.1

/-! ### Quotes and transcripts -/

/-- The `factCheck` sub-record of a quote. -/
structure FactCheck where
  rating : String
  source : Option String
  sourceUrl : Option String
  deriving DecidableEq, Repr

/-- A quote record as built at lines 189-195. -/
structure Quote where
  id : String
  text : List Char
  categories : List String
  rhetoric : List String
  factCheck : FactCheck
  deriving DecidableEq, Repr

/-- A transcript record, restricted to the fields the pipeline reads.
`extractedQuotes = none` models the key being absent (or `None`);
`some []` models a present empty list.  The Python truthiness test
`if transcript.get('extractedQuotes')` is false in both cases. -/
structure Transcript where
  id : String
  speakerId : String
  fullText : List Char
  extractedQuotes : Option (List Quote)
  deriving DecidableEq, Repr

/-- The quote dict built at lines 189-195.  `n` is `len(quotes)` at the
moment of the append.  Python's `list(set(categories))` returns the
distinct labels in an unspecified order; since each rule fires at most once
and rule labels are pairwise distinct, the lists carry no duplicates and
any deduplication is faithful — we use `List.dedup`. -/
def mkQuote (tid : String) (n : Nat) (t : List Char) : Quote :=
  { id := tid ++ "-q" ++ toString n
  , text := t
  , categories := (classify t).1.dedup
  , rhetoric := (classify t).2.dedup
  , factCheck := { rating := "unverified", source := none, sourceUrl := none } }

/-- The sentence loop of lines 172-195: strip, length-filter to [20, 300],
classify, and append kept quotes with sequential ids. -/
def buildQuotes (tid : String) : List (List Char) → List Quote → List Quote
  | [], acc => acc
  | s :: rest, acc =>
    let t := trim s
    if t.length < 20 || 300 < t.length then buildQuotes tid rest acc
    else if keepSegment t then buildQuotes tid rest (acc ++ [mkQuote tid acc.length t])
    else buildQuotes tid rest acc

/-- Quote extraction for one transcript body: the loop of lines 168-197
including the final `quotes[:10]` truncation. -/
def extractQuotes (tid : String) (text : List Char) : List Quote :=
  (buildQuotes tid (splitSentences text) []).take 10

/-- Truthiness of `transcript.get('extractedQuotes')` (line 161): true
exactly when the field is present and a non-empty list. -/
def hasQuotes (t : Transcript) : Bool := !(t.extractedQuotes.getD []).isEmpty

/-- The per-transcript body of `run_analysis` (lines 160-197): skip when
`extractedQuotes` is truthy (non-empty list), skip when `fullText` is
falsy (empty), otherwise store the extracted quotes. -/
def processTranscript (t : Transcript) : Transcript :=
  if hasQuotes t then t
  else if t.fullText.isEmpty then t
  else { t with extractedQuotes := some (extractQuotes t.id t.fullText) }

/-- `run_analysis(transcripts)` (lines 140-200): process each transcript in
place and return the list. -/
def run_analysis (ts : List Transcript) : List Transcript :=
  ts.map processTranscript

/-! ### Merging (collect_all.py lines 75-88) -/

/-- The merge loop of lines 80-85, carrying the `existing_ids` set (modelled
by a list used only through membership) and the `merged` accumulator. -/
def mergeGo : List String → List Transcript → List Transcript → List Transcript
  | _, merged, [] => merged
  | ids, merged, t :: ts =>
    if t.id ∈ ids then mergeGo ids merged ts
    else mergeGo (t.id :: ids) (merged ++ [t]) ts

/-- `merge_transcripts(existing, new_transcripts)`: dedup-by-id append. -/
def merge_transcripts (existing incoming : List Transcript) : List Transcript :=
  mergeGo (existing.map (fun t => t.id)) existing incoming

/-- Modelled from the spec's merge description, for comparison with
`merge_transcripts`: the incoming records, in order, whose id is not in
`seen` nor equal to the id of an earlier record admitted by this pass. -/
def admitNew (seen : List String) : List Transcript → List Transcript
  | [] => []
  | t :: ts => if t.id ∈ seen then admitNew seen ts else t :: admitNew (t.id :: seen) ts

/-! ### Stats (collect_all.py lines 38-66) -/

/-- One `d[k] = d.get(k, 0) + 1` step on a Python dict modelled as an
association list in insertion order: bump the entry of `k` when present
(Python dict keys are unique, so at most one entry carries `k`), else
append `(k, 1)` at the end. -/
def incr : List (String × Nat) → String → List (String × Nat)
  | [], k => [(k, 1)]
  | p :: m, k => if p.1 = k then (p.1, p.2 + 1) :: m else p :: incr m k

/-- The `stats` block computed by `save_transcripts` (lines 38-66). -/
structure Stats where
  totalTranscripts : Nat
  totalQuotes : Nat
  bySpeaker : List (String × Nat)
  byTopic : List (String × Nat)
  byRhetoric : List (String × Nat)
  deriving DecidableEq, Repr

/-- The quotes list `t.get('extractedQuotes', [])` of a transcript. -/
def quotesOf (t : Transcript) : List Quote := t.extractedQuotes.getD []

/-- The stats computation of `save_transcripts` (lines 38-66): one pass over
the transcripts bumping `by_speaker` per transcript and `by_topic` /
`by_rhetoric` once per label per quote, plus the two totals of lines 61-62. -/
def computeStats (ts : List Transcript) : Stats :=
  { totalTranscripts := ts.length
  , totalQuotes := (ts.map (fun t => (quotesOf t).length)).sum
  , bySpeaker := ts.foldl (fun m t => incr m t.speakerId) []
  , byTopic := ts.foldl
      (fun m t => (quotesOf t).foldl (fun m q => q.categories.foldl incr m) m) []
  , byRhetoric := ts.foldl
      (fun m t => (quotesOf t).foldl (fun m q => q.rhetoric.foldl incr m) m) [] }

/-- Sum of the counter values of a dict. -/
def sumVals (m : List (String × Nat)) : Nat := (m.map Prod.snd).sum

/-- The spec's scenario text (spec §8, scenario example). -/
def scenarioText : List Char :=
  chars "We will never stop. They are an invasion at our border. It was a nice sunny day."

/-- The one quote the extractor produces on `scenarioText`. -/
def scenarioQuote : Quote :=
  { id := "tid-q0"
  , text := chars "They are an invasion at our border"
  , categories := ["immigration"]
  , rhetoric := ["dehumanizing-language"]
  , factCheck := { rating := "unverified", source := none, sourceUrl := none } }

/-- The scenario transcript before extraction. -/
def scenarioTranscript : Transcript :=
  { id := "tid", speakerId := "spk", fullText := scenarioText, extractedQuotes := none }

/-- A transcript already carrying a quote, for exercising the skip rule. -/
def annotatedTranscript : Transcript :=
  { id := "w"
  , speakerId := "s"
  , fullText := chars "Hello there."
  , extractedQuotes := some [scenarioQuote] }

/-- A transcript with empty body and no quotes field. -/
def emptyT0 : Transcript :=
  { id := "t0", speakerId := "s0", fullText := [], extractedQuotes := none }

/-- Another transcript with empty body and no quotes field. -/
def emptyT1 : Transcript :=
  { id := "t1", speakerId := "s1", fullText := [], extractedQuotes := none }

/-! ### Lemmas about merging -/

/-- The merge loop appends exactly the records `admitNew` describes. -/
theorem mergeGo_eq_append (inc : List Transcript) :
    ∀ ids merged, mergeGo ids merged inc = merged ++ admitNew ids inc := by
  induction inc with
  | nil => intro ids merged; simp [mergeGo, admitNew]
  | cons t ts ih =>
    intro ids merged
    by_cases h : t.id ∈ ids
    · simp [mergeGo, admitNew, h, ih]
    · simp [mergeGo, admitNew, h, ih, List.append_assoc]

/-- When every incoming id is already seen, nothing is admitted. -/
theorem admitNew_eq_nil (inc : List Transcript) :
    ∀ seen, (∀ t ∈ inc, t.id ∈ seen) → admitNew seen inc = [] := by
  induction inc with
  | nil => intro seen _; rfl
  | cons t ts ih =>
    intro seen h
    have ht : t.id ∈ seen := h t (List.mem_cons_self t ts)
    simp [admitNew, ht]
    exact ih seen (fun u hu => h u (List.mem_cons_of_mem t hu))

/-- Every incoming record's id ends up either already seen or among the ids
of the records admitted by the pass. -/
theorem admitNew_covers (inc : List Transcript) :
    ∀ seen, ∀ t ∈ inc, t.id ∈ seen ∨ t.id ∈ (admitNew seen inc).map (fun u => u.id) := by
  induction inc with
  | nil => intro seen t ht; cases ht
  | cons u ts ih =>
    intro seen t ht
    by_cases hu : u.id ∈ seen
    · rcases List.mem_cons.1 ht with rfl | hts
      · exact Or.inl hu
      · rcases ih seen t hts with h | h
        · exact Or.inl h
        · simp [admitNew, hu]
          exact Or.inr (by simpa [admitNew, hu] using h)
    · rcases List.mem_cons.1 ht with rfl | hts
      · exact Or.inr (by simp [admitNew, hu])
      · rcases ih (u.id :: seen) t hts with h | h
        · rcases List.mem_cons.1 h with h1 | h1
          · exact Or.inr (by simp [admitNew, hu, h1])
          · exact Or.inl h1
        · exact Or.inr (by simpa [admitNew, hu] using Or.inr h)

/-- `merge_transcripts` is its `admitNew` characterization. -/
theorem merge_eq_append (A B : List Transcript) :
    merge_transcripts A B = A ++ admitNew (A.map (fun t => t.id)) B := by
  simpa [merge_transcripts] using mergeGo_eq_append B (A.map (fun t => t.id)) A

/-! ### Lemmas about classification -/

/-- The classification fold collects, in table order, the labels of the
matching topic rules and the labels of the matching rhetoric rules. -/
theorem classify_foldl (s : List Char) (ps : List (List (List Char) × String)) :
    ∀ acc : List String × List String,
      ps.foldl
        (fun acc rule =>
          if patMatches s rule.1 then
            if rule.2 ∈ rhetoricLabels then (acc.1, acc.2 ++ [rule.2])
            else (acc.1 ++ [rule.2], acc.2)
          else acc)
        acc
      = (acc.1 ++ (ps.filter (topicMatchP s)).map (fun r => r.2),
         acc.2 ++ (ps.filter (rhetMatchP s)).map (fun r => r.2)) := by
  induction ps with
  | nil => intro acc; simp
  | cons r ps ih =>
    intro acc
    by_cases hm : patMatches s r.1 = true
    · by_cases hr : r.2 ∈ rhetoricLabels
      · simp [List.foldl_cons, hm, hr, ih, topicMatchP, rhetMatchP, List.filter_cons]
      · simp [List.foldl_cons, hm, hr, ih, topicMatchP, rhetMatchP, List.filter_cons]
    · simp [List.foldl_cons, hm, ih, topicMatchP, rhetMatchP, List.filter_cons]

/-- `classify` in terms of the matching rules of the table. -/
theorem classify_char (s : List Char) :
    classify s = ((quote_patterns.filter (topicMatchP s)).map (fun r => r.2),
                  (quote_patterns.filter (rhetMatchP s)).map (fun r => r.2)) := by
  simpa [classify] using classify_foldl s quote_patterns ([], [])

/-- Every label in the rhetoric component comes from `rhetoricLabels`. -/
theorem classify_snd_mem (s : List Char) :
    ∀ r ∈ (classify s).2, r ∈ rhetoricLabels := by
  intro r hr
  rw [classify_char] at hr
  simp only [List.mem_map] at hr
  rcases hr with ⟨rule, hrule, rfl⟩
  have h := (List.mem_filter.1 hrule).2
  simp only [rhetMatchP, Bool.and_eq_true, decide_eq_true_eq] at h
  exact h.1

/-- Every label in the categories component is a topic label of the table. -/
theorem classify_fst_mem (s : List Char) :
    ∀ c ∈ (classify s).1, c ∈ (["immigration", "election"] : List String) := by
  intro c hc
  rw [classify_char] at hc
  simp only [List.mem_map] at hc
  rcases hc with ⟨rule, hrule, rfl⟩
  rcases List.mem_filter.1 hrule with ⟨hmem, hp⟩
  simp only [topicMatchP, Bool.and_eq_true, Bool.not_eq_true', decide_eq_false_iff_not] at hp
  fin_cases hmem <;> simp_all [rhetoricLabels]

/-! ### Lemmas about trimming -/

/-- Dropping a prefix of `p`-characters twice is the same as once. -/
theorem dropWhile_dropWhile (p : Char → Bool) (l : List Char) :
    (l.dropWhile p).dropWhile p = l.dropWhile p := by
  induction l with
  | nil => rfl
  | cons a l ih =>
    by_cases h : p a = true
    · simp [List.dropWhile_cons, h, ih]
    · simp [List.dropWhile_cons, h]

/-- The head left by `dropWhile` does not satisfy the predicate. -/
theorem head_dropWhile (p : Char → Bool) :
    ∀ (l : List Char) (a : Char) (t : List Char), l.dropWhile p = a :: t → p a = false := by
  intro l
  induction l with
  | nil => intro a t h; cases h
  | cons b l ih =>
    intro a t h
    by_cases hb : p b = true
    · rw [List.dropWhile_cons, if_pos hb] at h
      exact ih a t h
    · rw [List.dropWhile_cons, if_neg hb] at h
      cases h
      simpa using hb

/-- Python `strip()` is idempotent. -/
theorem trim_idem (l : List Char) : trim (trim l) = trim l := by
  unfold trim
  set y := l.dropWhile isPySpace with hy
  set z := y.reverse.dropWhile isPySpace with hz
  have hA : z.reverse.dropWhile isPySpace = z.reverse := by
    cases hzz : z.reverse with
    | nil => simp
    | cons a t =>
      have hzy : z <:+ y.reverse := by rw [hz]; exact List.dropWhile_suffix isPySpace
      have hpref : z.reverse <+: y := by
        simpa using List.reverse_prefix.mpr hzy
      rcases hpref with ⟨rest, hrest⟩
      have hya : l.dropWhile isPySpace = a :: (t ++ rest) := by
        rw [← hy, ← hrest, hzz]; rfl
      have hpa : isPySpace a = false := head_dropWhile isPySpace l a (t ++ rest) hya
      rw [List.dropWhile_cons, if_neg (by simp [hpa])]
  rw [hA, List.reverse_reverse, hz, dropWhile_dropWhile]

/-! ### Lemmas about the extraction loop -/

/-- Every quote the sentence loop emits beyond its accumulator is an
`mkQuote` on a trimmed sentence that passed the length filter. -/
theorem mem_buildQuotes (tid : String) :
    ∀ sents acc (q : Quote), q ∈ buildQuotes tid sents acc →
      q ∈ acc ∨ ∃ n s, q = mkQuote tid n (trim s) ∧
        20 ≤ (trim s).length ∧ (trim s).length ≤ 300 := by
  intro sents
  induction sents with
  | nil =>
    intro acc q h
    exact Or.inl (by simpa [buildQuotes] using h)
  | cons s rest ih =>
    intro acc q h
    simp only [buildQuotes] at h
    by_cases hc : ((trim s).length < 20 ∨ 300 < (trim s).length)
    · rw [if_pos (by simpa using hc)] at h
      exact ih acc q h
    · rw [if_neg (by simpa using hc)] at h
      by_cases hk : keepSegment (trim s) = true
      · rw [if_pos hk] at h
        rcases ih _ q h with hq | hq
        · rcases List.mem_append.1 hq with h1 | h1
          · exact Or.inl h1
          · have heq : q = mkQuote tid acc.length (trim s) := by simpa using h1
            push_neg at hc
            exact Or.inr ⟨acc.length, s, heq, by omega, by omega⟩
        · exact Or.inr hq
      · rw [if_neg hk] at h
        exact ih acc q h

/-- Processing a transcript twice is the same as processing it once. -/
theorem processTranscript_idem (t : Transcript) :
    processTranscript (processTranscript t) = processTranscript t := by
  by_cases h : hasQuotes t = true
  · simp [processTranscript, h]
  · by_cases hf : t.fullText.isEmpty = true
    · simp [processTranscript, h, hf]
    · have hpt : processTranscript t =
          { t with extractedQuotes := some (extractQuotes t.id t.fullText) } := by
        simp [processTranscript, h, hf]
      rw [hpt]
      rcases hcase : extractQuotes t.id t.fullText with _ | ⟨q, qs⟩
      · simp [processTranscript, hasQuotes, hf, hcase]
      · simp [processTranscript, hasQuotes]

/-! ### Lemmas about stats -/

/-- One dict increment raises the total of the counter values by one. -/
theorem sumVals_incr (m : List (String × Nat)) (k : String) :
    sumVals (incr m k) = sumVals m + 1 := by
  induction m with
  | nil => simp [incr, sumVals]
  | cons p m ih =>
    by_cases h : p.1 = k
    · simp only [incr, if_pos h, sumVals, List.map_cons, List.sum_cons]
      omega
    · simp only [incr, if_neg h, sumVals, List.map_cons, List.sum_cons] at ih ⊢
      omega

/-- Folding one increment per transcript adds the number of transcripts. -/
theorem sumVals_foldl_incr (ts : List Transcript) :
    ∀ m, sumVals (ts.foldl (fun m t => incr m t.speakerId) m) = sumVals m + ts.length := by
  induction ts with
  | nil => intro m; simp
  | cons t ts ih =>
    intro m
    rw [List.foldl_cons, ih, sumVals_incr, List.length_cons]
    omega

/-! ### The claims -/

/-- C1: merge is idempotent: merging the same incoming batch a second time
changes nothing, `merge(merge(A, B), B) = merge(A, B)` for all record
sequences A and B. -/
theorem C1_merge_idempotent (A B : List Transcript) :
    merge_transcripts (merge_transcripts A B) B = merge_transcripts A B := by
  have h1 := merge_eq_append A B
  have hcov : ∀ t ∈ B, t.id ∈ (merge_transcripts A B).map (fun u => u.id) := by
    intro t ht
    rw [h1, List.map_append]
    rcases admitNew_covers B (A.map (fun u => u.id)) t ht with h | h
    · exact List.mem_append.2 (Or.inl h)
    · exact List.mem_append.2 (Or.inr h)
  rw [merge_eq_append (merge_transcripts A B) B, admitNew_eq_nil B _ hcov, List.append_nil]

/-- C2: `merge(existing, incoming)` is `existing`, its records untouched and
in order, followed by exactly the incoming records (in their original
relative order) whose id occurs neither in `existing` nor in an
earlier-admitted incoming record; in particular merging an empty incoming
batch returns `existing` unchanged. -/
theorem C2_merge_additive_order (A B : List Transcript) :
    merge_transcripts A B = A ++ admitNew (A.map (fun t => t.id)) B ∧
      merge_transcripts A [] = A := by
  refine ⟨merge_eq_append A B, ?_⟩
  rw [merge_eq_append]
  simp [admitNew]

/-- C3: a transcript whose extractedQuotes is already non-empty is left
entirely unchanged by the extraction pass, and consequently running the
pass twice over a corpus equals running it once. -/
theorem C3_extraction_skip_rule :
    (∀ (t : Transcript) (q : Quote) (qs : List Quote),
        t.extractedQuotes = some (q :: qs) → processTranscript t = t) ∧
      ∀ ts : List Transcript, run_analysis (run_analysis ts) = run_analysis ts := by
  constructor
  · intro t q qs h
    have hq : hasQuotes t = true := by simp [hasQuotes, h]
    simp [processTranscript, hq]
  · intro ts
    simp [run_analysis, List.map_map, Function.comp, processTranscript_idem]

/-- C3 witness: the skip rule and corpus idempotence at concrete inputs. -/
theorem C3_extraction_skip_rule_witness :
    processTranscript annotatedTranscript = annotatedTranscript ∧
      run_analysis (run_analysis []) = run_analysis [] :=
  ⟨C3_extraction_skip_rule.1 _ scenarioQuote [] rfl, C3_extraction_skip_rule.2 []⟩

/-- C4 counterexample: on the spec's scenario text the extractor does NOT
produce two quotes with ids "tid-q0" and "tid-q1": sentence 1,
"We will never stop", has trimmed length 18 and is discarded by the
minimum-length-20 filter before any pattern matching happens. -/
theorem C4_scenario_counterexample :
    ¬ ((extractQuotes "tid" scenarioText).map (fun q => q.id) = ["tid-q0", "tid-q1"]) := by
  decide

/-- C4 amended: on the scenario transcript the extractor drops sentence 1
(trimmed length 18 < 20), keeps sentence 2 (dehumanizing-language rhetoric
plus immigration topic), drops sentence 3 (no matches), and stores exactly
one quote, with id "tid-q0". -/
theorem C4_scenario_amended :
    processTranscript scenarioTranscript =
      { scenarioTranscript with extractedQuotes := some [scenarioQuote] } := by
  decide

/-- C5 counterexample: a transcript with empty fullText and no
extractedQuotes field is not marked processed by the extraction pass: the
field does not become a present empty list. -/
theorem C5_empty_text_counterexample :
    (processTranscript emptyT0).extractedQuotes ≠ some [] := by
  decide

/-- C5 amended: the extraction pass leaves every transcript with empty
fullText entirely unchanged; in particular an absent extractedQuotes field
remains absent rather than being set to an empty list. -/
theorem C5_empty_text_amended (t : Transcript) (h : t.fullText = []) :
    processTranscript t = t := by
  by_cases hq : hasQuotes t = true
  · simp [processTranscript, hq]
  · simp [processTranscript, hq, h]

/-- C5 amended witness: the amended statement at a concrete transcript. -/
theorem C5_empty_text_amended_witness :
    processTranscript emptyT1 = emptyT1 :=
  C5_empty_text_amended _ rfl

/-- C6: a segment is kept by the keep test exactly when some
rhetoric-labelled rule of the pattern table matches it, or at least two
(distinct) topic-labelled rules match it. -/
theorem C6_keep_rule_iff (s : List Char) :
    keepSegment s = true ↔
      ((∃ r ∈ quote_patterns, r.2 ∈ rhetoricLabels ∧ patMatches s r.1 = true) ∨
        2 ≤ (quote_patterns.filter (topicMatchP s)).length) := by
  have h1f : (classify s).1 = (quote_patterns.filter (topicMatchP s)).map (fun r => r.2) := by
    rw [classify_char]
  have h2f : (classify s).2 = (quote_patterns.filter (rhetMatchP s)).map (fun r => r.2) := by
    rw [classify_char]
  unfold keepSegment
  rw [h1f, h2f]
  simp only [Bool.or_eq_true, Bool.not_eq_true', decide_eq_true_eq, List.length_map]
  constructor
  · rintro (h | h)
    · left
      have hne : quote_patterns.filter (rhetMatchP s) ≠ [] := by
        intro hnil
        simp [hnil] at h
      rcases List.exists_mem_of_ne_nil _ hne with ⟨r, hr⟩
      rcases List.mem_filter.1 hr with ⟨hmem, hp⟩
      simp only [rhetMatchP, Bool.and_eq_true, decide_eq_true_eq] at hp
      exact ⟨r, hmem, hp.1, hp.2⟩
    · exact Or.inr h
  · rintro (⟨r, hmem, hlab, hmat⟩ | h)
    · left
      have hr : r ∈ quote_patterns.filter (rhetMatchP s) :=
        List.mem_filter.2 ⟨hmem, by simp [rhetMatchP, hlab, hmat]⟩
      cases hf : quote_patterns.filter (rhetMatchP s) with
      | nil => rw [hf] at hr; cases hr
      | cons a l => simp [hf]
    · exact Or.inr h

/-- C7: a transcript actually processed by extraction stores at most 10
quotes; a transcript the pass does not touch is returned unchanged. -/
theorem C7_quote_cap (t : Transcript) :
    processTranscript t = t ∨
      ∃ l, (processTranscript t).extractedQuotes = some l ∧ l.length ≤ 10 := by
  by_cases h : hasQuotes t = true
  · exact Or.inl (by simp [processTranscript, h])
  · by_cases hf : t.fullText.isEmpty = true
    · exact Or.inl (by simp [processTranscript, h, hf])
    · refine Or.inr ⟨extractQuotes t.id t.fullText, ?_, ?_⟩
      · simp [processTranscript, h, hf]
      · exact List.length_take_le 10 (buildQuotes t.id (splitSentences t.fullText) [])

/-- C8: every quote produced by extraction carries a whitespace-trimmed text
of length at least 20 and at most 300. -/
theorem C8_quote_length_bound (tid : String) (text : List Char) (q : Quote)
    (h : q ∈ extractQuotes tid text) :
    trim q.text = q.text ∧ 20 ≤ q.text.length ∧ q.text.length ≤ 300 := by
  have h1 : q ∈ buildQuotes tid (splitSentences text) [] :=
    List.take_subset 10 _ h
  rcases mem_buildQuotes tid (splitSentences text) [] q h1 with h2 | ⟨n, s, rfl, hlo, hhi⟩
  · cases h2
  · exact ⟨by simp [mkQuote, trim_idem], by simpa [mkQuote] using hlo,
      by simpa [mkQuote] using hhi⟩

/-- C8 witness: the length bound at the concrete scenario quote. -/
theorem C8_quote_length_bound_witness :
    trim scenarioQuote.text = scenarioQuote.text ∧
      20 ≤ scenarioQuote.text.length ∧ scenarioQuote.text.length ≤ 300 :=
  C8_quote_length_bound "tid" scenarioText scenarioQuote (by decide)

/-- C9: the stats block satisfies totalQuotes = sum of extractedQuotes
lengths, the bySpeaker counters sum to the number of transcripts, and
totalTranscripts is the number of transcripts. -/
theorem C9_stats_consistency (ts : List Transcript) :
    (computeStats ts).totalQuotes = (ts.map (fun t => (quotesOf t).length)).sum ∧
      sumVals (computeStats ts).bySpeaker = ts.length ∧
      (computeStats ts).totalTranscripts = ts.length := by
  refine ⟨rfl, ?_, rfl⟩
  simpa [sumVals] using sumVals_foldl_incr ts []

/-- C10: every extracted quote draws its rhetoric labels from the three
rhetoric labels and its categories from {immigration, election}, with no
duplicates in either list, and its factCheck is the unverified
placeholder. -/
theorem C10_quote_label_invariant (tid : String) (text : List Char) (q : Quote)
    (h : q ∈ extractQuotes tid text) :
    (∀ r ∈ q.rhetoric, r ∈ rhetoricLabels) ∧
      (∀ c ∈ q.categories, c ∈ (["immigration", "election"] : List String)) ∧
      q.rhetoric.Nodup ∧ q.categories.Nodup ∧
      q.factCheck = { rating := "unverified", source := none, sourceUrl := none } := by
  have h1 : q ∈ buildQuotes tid (splitSentences text) [] :=
    List.take_subset 10 _ h
  rcases mem_buildQuotes tid (splitSentences text) [] q h1 with h2 | ⟨n, s, rfl, _, _⟩
  · cases h2
  · refine ⟨?_, ?_, ?_, ?_, rfl⟩
    · intro r hr
      exact classify_snd_mem (trim s) r (List.mem_dedup.1 (by simpa [mkQuote] using hr))
    · intro c hc
      exact classify_fst_mem (trim s) c (List.mem_dedup.1 (by simpa [mkQuote] using hc))
    · simpa [mkQuote] using List.nodup_dedup (classify (trim s)).2
    · simpa [mkQuote] using List.nodup_dedup (classify (trim s)).1

/-- C10 witness: the label invariant at the concrete scenario quote. -/
theorem C10_quote_label_invariant_witness :
    (∀ r ∈ scenarioQuote.rhetoric, r ∈ rhetoricLabels) ∧
      (∀ c ∈ scenarioQuote.categories, c ∈ (["immigration", "election"] : List String)) ∧
      scenarioQuote.rhetoric.Nodup ∧ scenarioQuote.categories.Nodup ∧
      scenarioQuote.factCheck = { rating := "unverified", source := none, sourceUrl := none } :=
  C10_quote_label_invariant "tid" scenarioText scenarioQuote (by decide)

end Overheard
